import Mathlib

/-!
Shallow embedding of `src/librtmp/rtmp.py` (python-librtmp): the RTMP session
class, its packet pump `process_packets`, the call/handle machinery
(`RTMP.call`, `RTMPCall.result`), handler registration and dispatch,
`set_option`, `create_stream`, and `connect`.

Modelling conventions:
* Python values decoded from AMF payloads are modelled by `AMFValue`;
  the Python value `None` coincides with the AMF null (as it does in the
  Python runtime, where `decode_amf` yields `None` for AMF null).
* Python `==` on decoded values is modelled by `pyEq` (numbers compare by
  value, and a Python `bool` equals the number `1.0` or `0.0`, as in CPython).
* Python `dict` state (`_invoke_results`) is modelled as an association list
  with `pyEq`-keyed lookup/overwrite/delete, `defaultdict(list)`
  (`_invoke_handlers`) likewise with a `[]` default.
* The librtmp C engine and the socket behind it are modelled by `Engine`:
  a connectivity flag, a packet stream indexed by read position (with
  `none` marking a failed read, i.e. the `IOError` raised by
  `read_packet`), per-read wall-clock durations, and the option-accepting
  predicate behind `RTMP_SetOpt`.  Wall-clock time (Python `time()`) is
  modelled by integer time units.
* The body of a packet is represented by the outcome of `decode_amf` on it
  (`DecodeResult`), since the AMF codec lives outside the session layer.
* Effects that only reach the engine (calls to `handle_packet`, handler
  callbacks firing) are recorded in an event trace.
-/

/-- A decoded action-message (AMF) value as seen by the Python code; `null`
doubles as the Python value `None`. -/
inductive AMFValue
  | null
  | number (q : ℚ)
  | string (s : String)
  | boolean (b : Bool)
  deriving DecidableEq

/-- Python `==` on decoded values: numbers by value, strings by value,
booleans by value, `None` only equal to itself, and a Python `bool` equal to
a number when its numeric value (`True = 1`, `False = 0`) matches, as in
CPython.  Used both for `==` comparisons and for dict keying. -/
def pyEq : AMFValue → AMFValue → Bool
  | AMFValue.null, AMFValue.null => true
  | AMFValue.number a, AMFValue.number b => decide (a = b)
  | AMFValue.string a, AMFValue.string b => decide (a = b)
  | AMFValue.boolean a, AMFValue.boolean b => decide (a = b)
  | AMFValue.boolean a, AMFValue.number b => decide (((if a then 1 else 0) : ℚ) = b)
  | AMFValue.number a, AMFValue.boolean b => decide (a = ((if b then 1 else 0) : ℚ))
  | _, _ => false

/-- Outcome of `decode_amf` on a packet body: failure (`AMFError`) or an
ordered sequence of decoded values. -/
inductive DecodeResult
  | fail
  | ok (values : List AMFValue)
  deriving DecidableEq

/-- Packet type tag of invocation packets.  Modelled from the spec: the
constant `PACKET_TYPE_INVOKE` is imported from `packet.py`, which is not
under `src/`; only its identity matters to the session layer. -/
def PACKET_TYPE_INVOKE : Nat := 20

/-- A protocol packet as the session layer sees it: its type tag and the
decode outcome of its body. -/
structure RTMPPacket where
  ptype : Nat
  decoded : DecodeResult
  deriving DecidableEq

/-- Observable effects of the session layer: a packet read from the engine,
a registered handler invoked with positional arguments (handlers are
identified by the numeric tag they were registered with), and a packet fed
to the engine protocol handler (`handle_packet`). -/
inductive Event
  | read (p : RTMPPacket)
  | handler (id : Nat) (args : List AMFValue)
  | handled (p : RTMPPacket)
  deriving DecidableEq

/-- The transport engine (librtmp plus its socket), abstracted: a
connectivity flag (held fixed while a pump runs), the packet obtained by
the n-th read (`none` = the read fails and `read_packet` raises `IOError`),
the wall-clock duration of the n-th read in integer time units, and the
predicate deciding which key/value pairs `RTMP_SetOpt` accepts. -/
structure Engine where
  connected : Bool
  stream : Nat → Option RTMPPacket
  duration : Nat → ℤ
  setOpt : String → String → Bool

/-- The mutable state of one `RTMP` session object.  `_invoke_handlers`,
`_invoke_results`, `_connect_result` and `_options` are the Python instance
attributes; `invoke_count` models the librtmp invoke counter behind the
`transaction_id` property (`RTMP_GetInvokeCount` / `RTMP_SetInvokeCount`,
which live outside `src/`); `pos` models how many packets the session has
read from the engine stream so far. -/
structure RTMP where
  _invoke_handlers : List (AMFValue × List Nat)
  _invoke_results : List (AMFValue × AMFValue)
  _connect_result : Option RTMPPacket
  invoke_count : ℤ
  _options : List (String × String)
  pos : Nat
  deriving DecidableEq

/-- The session state right after `__init__`: empty registries, no cached
connect result, no options recorded, nothing read. -/
def initSession : RTMP :=
  { _invoke_handlers := [], _invoke_results := [], _connect_result := none,
    invoke_count := 0, _options := [], pos := 0 }

/-- Python `key in dict` for the pending-results dict. -/
def dictContains (k : AMFValue) (d : List (AMFValue × AMFValue)) : Bool :=
  d.any fun kv => pyEq kv.1 k

/-- Python `dict[key]` (as an option) for the pending-results dict. -/
def dictLookup (k : AMFValue) (d : List (AMFValue × AMFValue)) : Option AMFValue :=
  (d.find? fun kv => pyEq kv.1 k).map Prod.snd

/-- Python `dict[key] = value`: overwrite the existing entry for an equal
key, else add a new entry. -/
def dictInsert (k v : AMFValue) (d : List (AMFValue × AMFValue)) :
    List (AMFValue × AMFValue) :=
  if dictContains k d then
    d.map fun kv => if pyEq kv.1 k then (kv.1, v) else kv
  else
    d ++ [(k, v)]

/-- Python `del dict[key]`. -/
def dictDelete (k : AMFValue) (d : List (AMFValue × AMFValue)) :
    List (AMFValue × AMFValue) :=
  d.filter fun kv => !(pyEq kv.1 k)

/-- `defaultdict(list)` read access used by dispatch: the handler list for
a method name, defaulting to the empty list. -/
def lookupHandlers (m : AMFValue) (hs : List (AMFValue × List Nat)) : List Nat :=
  ((hs.find? fun kv => pyEq kv.1 m).map Prod.snd).getD []

/-- `self._invoke_handlers[method].append(func)` on a `defaultdict(list)`:
append to the existing list for the method, creating a singleton list for a
fresh method name. -/
def handlersAppend (m : AMFValue) (f : Nat) (hs : List (AMFValue × List Nat)) :
    List (AMFValue × List Nat) :=
  if hs.any (fun kv => pyEq kv.1 m) then
    hs.map fun kv => if pyEq kv.1 m then (kv.1, kv.2 ++ [f]) else kv
  else
    hs ++ [(m, [f])]

/-- The body of one `process_packets` loop iteration on a decoded invocation
packet with at least three decoded values `method :: t :: obj :: args`:
store a `_result` value into the pending results (keyed by the decoded
transaction id `t`) or dispatch the registered handlers for the method name,
then either cache the packet as the deferred connect result (decoded id
equal to `1.0`) or feed the packet to the engine protocol handler. -/
def stepInvoke (s : RTMP) (tr : List Event) (p : RTMPPacket)
    (method t obj : AMFValue) (args : List AMFValue) : RTMP × List Event :=
  let s1tr1 :=
    if pyEq method (AMFValue.string "_result") then
      ({ s with _invoke_results :=
          dictInsert t (args.headD AMFValue.null) s._invoke_results }, tr)
    else
      (s, tr ++ (lookupHandlers method s._invoke_handlers).map
            fun h => Event.handler h args)
  if pyEq t (AMFValue.number 1) then
    ({ s1tr1.1 with _connect_result := some p }, s1tr1.2)
  else
    (s1tr1.1, s1tr1.2 ++ [Event.handled p])

/-- Result of running the pump: the loop ran out of modelling fuel, a read
raised `IOError` (propagated to the caller), or the function returned a
value (the removed pending result for the target id, or `None`). -/
inductive PumpResult
  | fuelOut
  | ioError (s : RTMP) (tr : List Event)
  | done (ret : AMFValue) (s : RTMP) (tr : List Event)
  deriving DecidableEq

/-- The code after the `process_packets` loop: if the target transaction id
has a stored pending result, delete the entry and return the value,
otherwise return `None`. -/
def pumpFinish (transaction_id : AMFValue) (s : RTMP) (tr : List Event) :
    PumpResult :=
  match dictLookup transaction_id s._invoke_results with
  | some r =>
      PumpResult.done r
        { s with _invoke_results := dictDelete transaction_id s._invoke_results } tr
  | none => PumpResult.done AMFValue.null s tr

/-- The `process_packets` loop, one constructor of fuel per packet read.
Loop while the engine is connected and the target id has no stored result;
break (to the post-loop code) once elapsed time reaches the timeout;
otherwise read a packet, and classify it: a failed read propagates
`IOError`; an invocation packet whose body fails to decode, or decodes to
fewer than three values (the `ValueError` from unpacking `decoded[:3]`), is
dropped by `continue`; a well-formed invocation is handled by `stepInvoke`;
a non-invocation packet is fed to the engine protocol handler. -/
def processPacketsLoop (eng : Engine) (transaction_id : AMFValue) (timeout : ℤ) :
    Nat → RTMP → ℤ → List Event → PumpResult
  | fuel, s, elapsed, tr =>
    if eng.connected && !(dictContains transaction_id s._invoke_results) then
      if elapsed ≥ timeout then
        pumpFinish transaction_id s tr
      else
        match fuel with
        | 0 => PumpResult.fuelOut
        | fuel' + 1 =>
          match eng.stream s.pos with
          | none => PumpResult.ioError s tr
          | some p =>
            let s1 : RTMP := { s with pos := s.pos + 1 }
            let elapsed1 := elapsed + eng.duration s.pos
            let tr1 := tr ++ [Event.read p]
            if p.ptype == PACKET_TYPE_INVOKE then
              match p.decoded with
              | DecodeResult.fail =>
                  processPacketsLoop eng transaction_id timeout fuel' s1 elapsed1 tr1
              | DecodeResult.ok decoded =>
                match decoded with
                | method :: t :: obj :: args =>
                    let s2tr2 := stepInvoke s1 tr1 p method t obj args
                    processPacketsLoop eng transaction_id timeout fuel'
                      s2tr2.1 elapsed1 s2tr2.2
                | _ =>
                    processPacketsLoop eng transaction_id timeout fuel' s1 elapsed1 tr1
            else
              processPacketsLoop eng transaction_id timeout fuel' s1 elapsed1
                (tr1 ++ [Event.handled p])
    else
      pumpFinish transaction_id s tr

/-- `RTMP.process_packets(transaction_id, timeout)`: run the pump loop from
elapsed time `0` with an empty event trace.  The Python default for
`timeout` is `30`; callers of the model pass it explicitly. -/
def RTMP.process_packets (eng : Engine) (s : RTMP) (transaction_id : AMFValue)
    (timeout : ℤ) (fuel : Nat) : PumpResult :=
  processPacketsLoop eng transaction_id timeout fuel s 0 []

/-- `RTMP.register_remote_call(method, func)`: append the callback (tagged
by `func`) to the handler list for the method name. -/
def RTMP.register_remote_call (s : RTMP) (method : String) (func : Nat) : RTMP :=
  { s with _invoke_handlers :=
      handlersAppend (AMFValue.string method) func s._invoke_handlers }

/-- `RTMP.set_option(key, value)`: forward the pair to `RTMP_SetOpt`; if the
engine rejects it, raise `ValueError` (the `Except.error` case, leaving the
caller with the unmodified session), otherwise record the pair.  Each call
records a fresh entry, as the Python dict is keyed by fresh `AVal` objects. -/
def RTMP.set_option (eng : Engine) (s : RTMP) (key value : String) :
    Except String RTMP :=
  if eng.setOpt key value then
    Except.ok { s with _options := s._options ++ [(key, value)] }
  else
    Except.error ("Unable to set option " ++ key)

/-- A call handle (`RTMPCall`): cached result, resolved flag, and the
transaction id it awaits. -/
structure RTMPCall where
  _result : AMFValue
  done : Bool
  transaction_id : AMFValue
  deriving DecidableEq

/-- `RTMP.connect(packet)` on success returns `RTMPCall(self, 1.0)`.
Modelled from the spec: `RTMP_Connect` is not under `src/`; per the spec the
connect handshake consumes the reserved transaction id `1.0`, so the
engine invoke counter is left at `1` by a successful connect. -/
def RTMP.connect (s : RTMP) : RTMP × RTMPCall :=
  ({ s with invoke_count := 1 },
   { _result := AMFValue.null, done := false, transaction_id := AMFValue.number 1 })

/-- `RTMP.call(method, *args)`: increment the engine invoke counter
(`self.transaction_id += 1`), encode and send the invocation packet (an
engine-side effect), and return a fresh handle for the new id. -/
def RTMP.call (s : RTMP) (method : String) (args : List AMFValue) :
    RTMP × RTMPCall :=
  let newCount := s.invoke_count + 1
  ({ s with invoke_count := newCount },
   { _result := AMFValue.null, done := false,
     transaction_id := AMFValue.number ((newCount : ℤ) : ℚ) })

/-- `RTMP.create_stream(seek, writeable)` restricted to the session state it
touches: if a deferred connect result is cached, feed it to the engine
protocol handler (`handle_packet`); the cached packet is not cleared.  The
engine-only calls (`RTMP_EnableWrite`, `RTMP_ConnectStream`) happen after
the forwarding and do not touch the modelled state. -/
def RTMP.create_stream (s : RTMP) : RTMP × List Event :=
  match s._connect_result with
  | some p => (s, [Event.handled p])
  | none => (s, [])

/-- What `RTMPCall.result(timeout)` returns: a Python value, or the bound
method object `self.result` itself (the object produced by the attribute
access `self.result` in `return self.result`). -/
inductive CallRet
  | value (v : AMFValue)
  | boundMethod
  deriving DecidableEq

/-- Outcome of `RTMPCall.result(timeout)`: a returned value together with
the updated session and handle and the events of the call, a propagated
`IOError` from the pump, or fuel exhaustion of the model. -/
inductive ResultOut
  | ret (v : CallRet) (s : RTMP) (c : RTMPCall) (tr : List Event)
  | ioErr (s : RTMP) (tr : List Event)
  | fuelOut
  deriving DecidableEq

/-- `RTMPCall.result(timeout)`: if already done, `return self.result` (the
bound method object, with no pump attempt and no reads); otherwise run
`self.conn.process_packets(self.transaction_id)` — the `timeout` argument
is not forwarded, so the pump runs with its own default of `30` — then
cache the value, mark the handle done and return the value. -/
def RTMPCall.result (eng : Engine) (fuel : Nat) (timeout : Option ℤ)
    (s : RTMP) (c : RTMPCall) : ResultOut :=
  if c.done then
    ResultOut.ret CallRet.boundMethod s c []
  else
    match RTMP.process_packets eng s c.transaction_id 30 fuel with
    | PumpResult.done r s' tr =>
        ResultOut.ret (CallRet.value r) s'
          { c with _result := r, done := true } tr
    | PumpResult.ioError s' tr => ResultOut.ioErr s' tr
    | PumpResult.fuelOut => ResultOut.fuelOut

/-- Issue a sequence of `call()` invocations (each with no extra arguments)
and collect the returned handles. -/
def callSeq : RTMP → List String → RTMP × List RTMPCall
  | s, [] => (s, [])
  | s, m :: ms =>
    let sc := RTMP.call s m []
    let rest := callSeq sc.1 ms
    (rest.1, sc.2 :: rest.2)

/-- The numeric value of an AMF number, `0` otherwise. -/
def amfNum : AMFValue → ℚ
  | AMFValue.number q => q
  | _ => 0

/-- The event trace carried by a pump outcome. -/
def traceOf : PumpResult → List Event
  | PumpResult.fuelOut => []
  | PumpResult.ioError _ tr => tr
  | PumpResult.done _ _ tr => tr

/-- The session state carried by a completed pump outcome. -/
def sessionOf : PumpResult → Option RTMP
  | PumpResult.fuelOut => none
  | PumpResult.ioError s _ => some s
  | PumpResult.done _ s _ => some s

/-- Number of engine reads recorded in a trace. -/
def readCount (tr : List Event) : Nat :=
  (tr.filter fun e => match e with | Event.read _ => true | _ => false).length

/-- A packet is a connect reply when it is an invocation whose body decodes
to at least three values with decoded transaction id equal to `1.0` — the
packets that `process_packets` caches as the deferred connect result. -/
def isConnectReply (p : RTMPPacket) : Bool :=
  (p.ptype == PACKET_TYPE_INVOKE) &&
    match p.decoded with
    | DecodeResult.ok (_ :: t :: _ :: _) => pyEq t (AMFValue.number 1)
    | _ => false

/-- Keys of the pending-results dict are pairwise distinct under Python
equality (the dict invariant). -/
def PairwiseKeys (d : List (AMFValue × AMFValue)) : Prop :=
  List.Pairwise (fun a b => pyEq a.1 b.1 = false) d

/-- Concrete fixture: an engine whose reads all fail; used for runs that
never reach a read. -/
def engNull : Engine :=
  { connected := true, stream := fun _ => none, duration := fun _ => 1,
    setOpt := fun _ _ => true }

/-- Concrete fixture: an invocation packet whose body does not decode. -/
def pBad : RTMPPacket :=
  { ptype := PACKET_TYPE_INVOKE, decoded := DecodeResult.fail }

/-- Concrete fixture: a connected engine that yields only undecodable
invocation packets, each read taking one time unit — a server that never
yields a matching result. -/
def engNoMatch : Engine :=
  { connected := true, stream := fun _ => some pBad, duration := fun _ => 1,
    setOpt := fun _ _ => true }

/-- Concrete fixture: a result packet for transaction id `7` carrying the
value `42`. -/
def pGood : RTMPPacket :=
  { ptype := PACKET_TYPE_INVOKE,
    decoded := DecodeResult.ok
      [AMFValue.string "_result", AMFValue.number 7, AMFValue.null,
       AMFValue.number 42] }

/-- Concrete fixture: a connected engine that yields one undecodable
invocation packet and then result packets for id `7`. -/
def engSeq : Engine :=
  { connected := true,
    stream := fun n => if n == 0 then some pBad else some pGood,
    duration := fun _ => 1, setOpt := fun _ _ => true }

/-- Concrete fixture: an engine that rejects every option pair. -/
def engReject : Engine :=
  { connected := true, stream := fun _ => none, duration := fun _ => 1,
    setOpt := fun _ _ => false }

/-- Concrete fixture: a non-invocation packet (as cached connect replies or
engine-bound packets in scenarios). -/
def p0 : RTMPPacket :=
  { ptype := 8, decoded := DecodeResult.fail }

/-- Concrete fixture: a session holding a stored pending result `42` for
transaction id `2`. -/
def sWith42 : RTMP :=
  { initSession with _invoke_results := [(AMFValue.number 2, AMFValue.number 42)] }

/-- Concrete fixture: a session caching `p0` as its deferred connect
result. -/
def sConn : RTMP :=
  { initSession with _connect_result := some p0 }

/-- Concrete fixture: an unresolved call handle awaiting transaction id
`2`. -/
def cFor2 : RTMPCall :=
  { _result := AMFValue.null, done := false, transaction_id := AMFValue.number 2 }

def cDone : RTMPCall :=
  { _result := AMFValue.number 42, done := true, transaction_id := AMFValue.number 2 }

def engP0 : Engine :=
  { connected := true, stream := fun _ => some p0, duration := fun _ => 1,
    setOpt := fun _ _ => true }

def engRes : Engine :=
  { connected := true, stream := fun _ => some pGood, duration := fun _ => 1,
    setOpt := fun _ _ => true }

def pShort : RTMPPacket :=
  { ptype := PACKET_TYPE_INVOKE, decoded := DecodeResult.ok [AMFValue.string "x"] }

def engShort : Engine :=
  { connected := true, stream := fun _ => some pShort, duration := fun _ => 1,
    setOpt := fun _ _ => true }

/-! ### Basic lemmas about Python equality and the dict model -/

theorem pyEq_refl (a : AMFValue) : pyEq a a = true := by
  cases a <;> simp [pyEq]

theorem pyEq_symm (a b : AMFValue) : pyEq a b = pyEq b a := by
  cases a <;> cases b <;> simp [pyEq, eq_comm]

theorem pyEq_trans {a b c : AMFValue} (h1 : pyEq a b = true)
    (h2 : pyEq b c = true) : pyEq a c = true := by
  cases a <;> cases b <;> cases c <;>
    simp only [pyEq, decide_eq_true_eq, Bool.false_eq_true] at h1 h2 ⊢
  all_goals (try exact h1.trans h2)
  all_goals (try exact h2 ▸ h1)
  all_goals (try exact h1 ▸ h2)
  all_goals (have h3 := h1.trans h2; split_ifs at h3 <;> simp_all)

theorem dictContains_eq_false_iff (k : AMFValue) (d : List (AMFValue × AMFValue)) :
    dictContains k d = false ↔ ∀ kv ∈ d, pyEq kv.1 k = false := by
  simp [dictContains, List.any_eq_true]

theorem dictLookup_eq_none_of_not_contains {k : AMFValue}
    {d : List (AMFValue × AMFValue)} (h : dictContains k d = false) :
    dictLookup k d = none := by
  rw [dictContains_eq_false_iff] at h
  simp only [dictLookup, Option.map_eq_none', List.find?_eq_none]
  intro kv hmem
  simp [h kv hmem]

theorem dictContains_of_lookup {k : AMFValue} {d : List (AMFValue × AMFValue)}
    {r : AMFValue} (h : dictLookup k d = some r) : dictContains k d = true := by
  by_contra hc
  rw [Bool.not_eq_true] at hc
  rw [dictLookup_eq_none_of_not_contains hc] at h
  exact Option.noConfusion h

theorem dictContains_delete_self (k : AMFValue) (d : List (AMFValue × AMFValue)) :
    dictContains k (dictDelete k d) = false := by
  simp only [dictContains, dictDelete, Bool.eq_false_iff, ne_eq, List.any_eq_true]
  rintro ⟨kv, hmem, hk⟩
  rw [List.mem_filter] at hmem
  rw [hk] at hmem
  simp at hmem

theorem dictLookup_insert_self (k v : AMFValue) (d : List (AMFValue × AMFValue)) :
    dictLookup k (dictInsert k v d) = some v := by
  by_cases hc : dictContains k d = true
  · simp only [dictInsert, hc, if_true]
    induction d with
    | nil => simp [dictContains] at hc
    | cons kv rest ih =>
      by_cases hk : pyEq kv.1 k = true
      · simp [dictLookup, hk]
      · rw [Bool.not_eq_true] at hk
        have hrest : dictContains k rest = true := by
          simp only [dictContains, List.any_cons, hk, Bool.false_or] at hc
          exact hc
        simpa [dictLookup, hk] using ih hrest
  · rw [Bool.not_eq_true] at hc
    simp only [dictInsert, hc, if_false, Bool.false_eq_true]
    rw [dictContains_eq_false_iff] at hc
    induction d with
    | nil => simp [dictLookup, pyEq_refl]
    | cons kv rest ih =>
      have hkv : pyEq kv.1 k = false := hc kv (by simp)
      simpa [dictLookup, hkv] using ih fun x hx => hc x (by simp [hx])

/-! ### One-step unfolding lemmas for the pump loop -/

theorem loop_exit_of_lookup {eng : Engine} {tid : AMFValue} {timeout : ℤ}
    {fuel : Nat} {s : RTMP} {elapsed : ℤ} {tr : List Event} {r : AMFValue}
    (h : dictLookup tid s._invoke_results = some r) :
    processPacketsLoop eng tid timeout fuel s elapsed tr =
      PumpResult.done r
        { s with _invoke_results := dictDelete tid s._invoke_results } tr := by
  have hc := dictContains_of_lookup h
  rw [processPacketsLoop.eq_def]
  simp only [hc, Bool.not_true, Bool.and_false, Bool.false_eq_true, if_false,
    pumpFinish, h]

theorem loop_exit_of_timeout {eng : Engine} {tid : AMFValue} {timeout : ℤ}
    {fuel : Nat} {s : RTMP} {elapsed : ℤ} {tr : List Event}
    (ht : timeout ≤ elapsed) :
    processPacketsLoop eng tid timeout fuel s elapsed tr = pumpFinish tid s tr := by
  rw [processPacketsLoop.eq_def]
  by_cases hcond : (eng.connected && !dictContains tid s._invoke_results) = true
  · simp only [hcond, if_true, ge_iff_le, ht, if_true]
  · simp only [Bool.not_eq_true] at hcond
    simp only [hcond, Bool.false_eq_true, if_false]

theorem loop_step_decodeFail {eng : Engine} {tid : AMFValue} {timeout : ℤ}
    {fuel : Nat} {s : RTMP} {elapsed : ℤ} {tr : List Event} {p : RTMPPacket}
    (hc : eng.connected = true)
    (hn : dictContains tid s._invoke_results = false)
    (ht : elapsed < timeout)
    (hs : eng.stream s.pos = some p)
    (hp : p.ptype = PACKET_TYPE_INVOKE)
    (hd : p.decoded = DecodeResult.fail) :
    processPacketsLoop eng tid timeout (fuel + 1) s elapsed tr =
      processPacketsLoop eng tid timeout fuel { s with pos := s.pos + 1 }
        (elapsed + eng.duration s.pos) (tr ++ [Event.read p]) := by
  rw [processPacketsLoop.eq_def]
  simp only [hc, hn, Bool.not_false, Bool.and_self, if_true, ge_iff_le,
    if_neg (not_le.mpr ht), hs, hp, beq_self_eq_true, if_true, hd]

theorem loop_step_shortDecode {eng : Engine} {tid : AMFValue} {timeout : ℤ}
    {fuel : Nat} {s : RTMP} {elapsed : ℤ} {tr : List Event} {p : RTMPPacket}
    {l : List AMFValue}
    (hc : eng.connected = true)
    (hn : dictContains tid s._invoke_results = false)
    (ht : elapsed < timeout)
    (hs : eng.stream s.pos = some p)
    (hp : p.ptype = PACKET_TYPE_INVOKE)
    (hd : p.decoded = DecodeResult.ok l)
    (hl : l.length < 3) :
    processPacketsLoop eng tid timeout (fuel + 1) s elapsed tr =
      processPacketsLoop eng tid timeout fuel { s with pos := s.pos + 1 }
        (elapsed + eng.duration s.pos) (tr ++ [Event.read p]) := by
  rw [processPacketsLoop.eq_def]
  simp only [hc, hn, Bool.not_false, Bool.and_self, if_true, ge_iff_le,
    if_neg (not_le.mpr ht), hs, hp, beq_self_eq_true, if_true, hd]
  match l, hl with
  | [], _ => rfl
  | [a], _ => rfl
  | [a, b], _ => rfl

theorem loop_step_invoke {eng : Engine} {tid : AMFValue} {timeout : ℤ}
    {fuel : Nat} {s : RTMP} {elapsed : ℤ} {tr : List Event} {p : RTMPPacket}
    {method t obj : AMFValue} {args : List AMFValue}
    (hc : eng.connected = true)
    (hn : dictContains tid s._invoke_results = false)
    (ht : elapsed < timeout)
    (hs : eng.stream s.pos = some p)
    (hp : p.ptype = PACKET_TYPE_INVOKE)
    (hd : p.decoded = DecodeResult.ok (method :: t :: obj :: args)) :
    processPacketsLoop eng tid timeout (fuel + 1) s elapsed tr =
      processPacketsLoop eng tid timeout fuel
        (stepInvoke { s with pos := s.pos + 1 } (tr ++ [Event.read p]) p
          method t obj args).1
        (elapsed + eng.duration s.pos)
        (stepInvoke { s with pos := s.pos + 1 } (tr ++ [Event.read p]) p
          method t obj args).2 := by
  rw [processPacketsLoop.eq_def]
  simp only [hc, hn, Bool.not_false, Bool.and_self, if_true, ge_iff_le,
    if_neg (not_le.mpr ht), hs, hp, beq_self_eq_true, if_true, hd]

theorem loop_step_nonInvoke {eng : Engine} {tid : AMFValue} {timeout : ℤ}
    {fuel : Nat} {s : RTMP} {elapsed : ℤ} {tr : List Event} {p : RTMPPacket}
    (hc : eng.connected = true)
    (hn : dictContains tid s._invoke_results = false)
    (ht : elapsed < timeout)
    (hs : eng.stream s.pos = some p)
    (hp : ¬(p.ptype = PACKET_TYPE_INVOKE)) :
    processPacketsLoop eng tid timeout (fuel + 1) s elapsed tr =
      processPacketsLoop eng tid timeout fuel { s with pos := s.pos + 1 }
        (elapsed + eng.duration s.pos)
        (tr ++ [Event.read p] ++ [Event.handled p]) := by
  rw [processPacketsLoop.eq_def]
  simp only [hc, hn, Bool.not_false, Bool.and_self, if_true, ge_iff_le,
    if_neg (not_le.mpr ht), hs, beq_iff_eq, hp, if_false]

theorem loop_step_readError {eng : Engine} {tid : AMFValue} {timeout : ℤ}
    {fuel : Nat} {s : RTMP} {elapsed : ℤ} {tr : List Event}
    (hc : eng.connected = true)
    (hn : dictContains tid s._invoke_results = false)
    (ht : elapsed < timeout)
    (hs : eng.stream s.pos = none) :
    processPacketsLoop eng tid timeout (fuel + 1) s elapsed tr =
      PumpResult.ioError s tr := by
  rw [processPacketsLoop.eq_def]
  simp only [hc, hn, Bool.not_false, Bool.and_self, if_true, ge_iff_le,
    if_neg (not_le.mpr ht), hs]

theorem traceOf_pumpFinish (tid : AMFValue) (s : RTMP) (tr : List Event) :
    traceOf (pumpFinish tid s tr) = tr := by
  unfold pumpFinish
  cases dictLookup tid s._invoke_results <;> rfl

theorem engNoMatch_loop (k : Nat) :
    ∀ (fuel : Nat) (s : RTMP) (elapsed : ℤ) (tr : List Event),
      s._invoke_results = [] → k ≤ fuel → elapsed + k = 30 →
      processPacketsLoop engNoMatch (AMFValue.number 2) 30 fuel s elapsed tr =
        PumpResult.done AMFValue.null { s with pos := s.pos + k }
          (tr ++ List.replicate k (Event.read pBad)) := by
  induction k with
  | zero =>
    intro fuel s elapsed tr hres hf he
    rw [loop_exit_of_timeout (by omega)]
    cases s
    simp_all [pumpFinish, dictLookup]
  | succ k ih =>
    intro fuel s elapsed tr hres hf he
    obtain ⟨fuel', rfl⟩ : ∃ f, fuel = f + 1 := ⟨fuel - 1, by omega⟩
    rw [loop_step_decodeFail (by rfl) (by simp [dictContains, hres])
      (by push_cast at he ⊢; omega) (by rfl) (by rfl) (by rfl)]
    rw [ih fuel' _ _ _ (by simp [hres]) (by omega)
      (by simp only [engNoMatch]; push_cast at he ⊢; omega)]
    have hpos : s.pos + 1 + k = s.pos + (k + 1) := by omega
    rw [hpos]
    simp [List.replicate_succ]

/-! ### Structure lemmas for stepInvoke and pumpFinish -/

theorem stepInvoke_results (s : RTMP) (tr : List Event) (p : RTMPPacket)
    (method t obj : AMFValue) (args : List AMFValue) :
    ((stepInvoke s tr p method t obj args).1)._invoke_results =
      if pyEq method (AMFValue.string "_result") then
        dictInsert t (args.headD AMFValue.null) s._invoke_results
      else s._invoke_results := by
  unfold stepInvoke
  by_cases hm : pyEq method (AMFValue.string "_result") = true <;>
    by_cases ht : pyEq t (AMFValue.number 1) = true <;> simp [hm, ht]

theorem stepInvoke_trace (s : RTMP) (tr : List Event) (p : RTMPPacket)
    (method t obj : AMFValue) (args : List AMFValue) :
    (stepInvoke s tr p method t obj args).2 =
      tr ++ (if pyEq method (AMFValue.string "_result") then []
             else (lookupHandlers method s._invoke_handlers).map
               fun h => Event.handler h args)
         ++ (if pyEq t (AMFValue.number 1) then [] else [Event.handled p]) := by
  unfold stepInvoke
  by_cases hm : pyEq method (AMFValue.string "_result") = true <;>
    by_cases ht : pyEq t (AMFValue.number 1) = true <;> simp [hm, ht]

theorem stepInvoke_handlers (s : RTMP) (tr : List Event) (p : RTMPPacket)
    (method t obj : AMFValue) (args : List AMFValue) :
    ((stepInvoke s tr p method t obj args).1)._invoke_handlers =
      s._invoke_handlers := by
  unfold stepInvoke
  by_cases hm : pyEq method (AMFValue.string "_result") = true <;>
    by_cases ht : pyEq t (AMFValue.number 1) = true <;> simp [hm, ht]

theorem dictContains_false_of_lookup_none {k : AMFValue}
    {d : List (AMFValue × AMFValue)} (h : dictLookup k d = none) :
    dictContains k d = false := by
  by_contra hc
  rw [Bool.not_eq_false, dictContains, List.any_eq_true] at hc
  obtain ⟨kv, hmem, hk⟩ := hc
  have h2 : (List.find? (fun kv => pyEq kv.1 k) d).isSome :=
    List.find?_isSome.mpr ⟨kv, hmem, hk⟩
  rw [dictLookup, Option.map_eq_none'] at h
  rw [h] at h2
  simp at h2

/-! ### The dict-key uniqueness invariant -/

theorem pairwiseKeys_insert {k v : AMFValue} {d : List (AMFValue × AMFValue)}
    (h : PairwiseKeys d) : PairwiseKeys (dictInsert k v d) := by
  unfold dictInsert
  by_cases hc : dictContains k d = true
  · simp only [hc, if_true]
    refine List.Pairwise.map _ ?_ h
    intro a b hab
    by_cases ha : pyEq a.1 k = true <;> by_cases hb : pyEq b.1 k = true <;>
      simp [ha, hb, hab]
  · rw [Bool.not_eq_true] at hc
    simp only [hc, Bool.false_eq_true, if_false]
    rw [PairwiseKeys, List.pairwise_append]
    refine ⟨h, List.pairwise_singleton _ _, ?_⟩
    intro a ha b hb
    rw [dictContains_eq_false_iff] at hc
    simp only [List.mem_singleton] at hb
    subst hb
    exact hc a ha

theorem pairwiseKeys_delete {k : AMFValue} {d : List (AMFValue × AMFValue)}
    (h : PairwiseKeys d) : PairwiseKeys (dictDelete k d) :=
  List.Pairwise.sublist (List.filter_sublist _) h

theorem pairwiseKeys_stepInvoke {s : RTMP} (tr : List Event) (p : RTMPPacket)
    (method t obj : AMFValue) (args : List AMFValue)
    (h : PairwiseKeys s._invoke_results) :
    PairwiseKeys ((stepInvoke s tr p method t obj args).1)._invoke_results := by
  rw [stepInvoke_results]
  by_cases hm : pyEq method (AMFValue.string "_result") = true
  · simpa [hm] using pairwiseKeys_insert h
  · simpa [hm] using h

theorem pumpFinish_inv (tid : AMFValue) (s : RTMP) (tr : List Event)
    (h : PairwiseKeys s._invoke_results) :
    (∀ s2 tr2, pumpFinish tid s tr = PumpResult.ioError s2 tr2 →
        PairwiseKeys s2._invoke_results) ∧
    (∀ r s2 tr2, pumpFinish tid s tr = PumpResult.done r s2 tr2 →
        PairwiseKeys s2._invoke_results ∧
          dictContains tid s2._invoke_results = false) := by
  cases hl : dictLookup tid s._invoke_results with
  | none =>
    constructor
    · intro s2 tr2 heq
      simp only [pumpFinish, hl] at heq
      exact PumpResult.noConfusion heq
    · intro r s2 tr2 heq
      simp only [pumpFinish, hl, PumpResult.done.injEq] at heq
      obtain ⟨h1, h2, h3⟩ := heq
      subst h2
      exact ⟨h, dictContains_false_of_lookup_none hl⟩
  | some v =>
    constructor
    · intro s2 tr2 heq
      simp only [pumpFinish, hl] at heq
      exact PumpResult.noConfusion heq
    · intro r s2 tr2 heq
      simp only [pumpFinish, hl, PumpResult.done.injEq] at heq
      obtain ⟨h1, h2, h3⟩ := heq
      subst h2
      exact ⟨pairwiseKeys_delete h, dictContains_delete_self _ _⟩

theorem loop_exit_of_cond_false {eng : Engine} {tid : AMFValue} {timeout : ℤ}
    {fuel : Nat} {s : RTMP} {elapsed : ℤ} {tr : List Event}
    (h : (eng.connected && !dictContains tid s._invoke_results) = false) :
    processPacketsLoop eng tid timeout fuel s elapsed tr = pumpFinish tid s tr := by
  rw [processPacketsLoop.eq_def]
  simp [h]

theorem loop_fuelZero {eng : Engine} {tid : AMFValue} {timeout : ℤ}
    {s : RTMP} {elapsed : ℤ} {tr : List Event}
    (hcond : (eng.connected && !dictContains tid s._invoke_results) = true)
    (ht : elapsed < timeout) :
    processPacketsLoop eng tid timeout 0 s elapsed tr = PumpResult.fuelOut := by
  rw [processPacketsLoop.eq_def]
  simp [hcond, if_neg (not_le.mpr ht)]

theorem loopInvariant (eng : Engine) (tid : AMFValue) (timeout : ℤ) :
    ∀ (fuel : Nat) (s : RTMP) (elapsed : ℤ) (tr : List Event),
      PairwiseKeys s._invoke_results →
      (∀ s2 tr2, processPacketsLoop eng tid timeout fuel s elapsed tr =
          PumpResult.ioError s2 tr2 → PairwiseKeys s2._invoke_results) ∧
      (∀ r s2 tr2, processPacketsLoop eng tid timeout fuel s elapsed tr =
          PumpResult.done r s2 tr2 →
          PairwiseKeys s2._invoke_results ∧
            dictContains tid s2._invoke_results = false) := by
  intro fuel
  induction fuel with
  | zero =>
    intro s elapsed tr h
    by_cases hcond : (eng.connected && !dictContains tid s._invoke_results) = true
    · by_cases ht : timeout ≤ elapsed
      · rw [loop_exit_of_timeout ht]
        exact pumpFinish_inv tid s tr h
      · rw [loop_fuelZero hcond (by omega)]
        exact ⟨fun s2 tr2 heq => PumpResult.noConfusion heq,
               fun r s2 tr2 heq => PumpResult.noConfusion heq⟩
    · rw [Bool.not_eq_true] at hcond
      rw [loop_exit_of_cond_false hcond]
      exact pumpFinish_inv tid s tr h
  | succ fuel ih =>
    intro s elapsed tr h
    by_cases hcond : (eng.connected && !dictContains tid s._invoke_results) = true
    · by_cases ht : timeout ≤ elapsed
      · rw [loop_exit_of_timeout ht]
        exact pumpFinish_inv tid s tr h
      · have ht' : elapsed < timeout := by omega
        have hcn : eng.connected = true ∧
            dictContains tid s._invoke_results = false := by
          rw [Bool.and_eq_true, Bool.not_eq_true'] at hcond
          exact hcond
        obtain ⟨hc, hn⟩ := hcn
        cases hs : eng.stream s.pos with
        | none =>
          rw [loop_step_readError hc hn ht' hs]
          refine ⟨fun s2 tr2 heq => ?_, fun r s2 tr2 heq => PumpResult.noConfusion heq⟩
          injection heq with h1 h2
          subst h1
          exact h
        | some p =>
          by_cases hp : p.ptype = PACKET_TYPE_INVOKE
          · cases hd : p.decoded with
            | fail =>
              rw [loop_step_decodeFail hc hn ht' hs hp hd]
              exact ih _ _ _ h
            | ok l =>
              rcases l with _ | ⟨m, _ | ⟨t, _ | ⟨o, args⟩⟩⟩
              · rw [loop_step_shortDecode hc hn ht' hs hp hd (by simp)]
                exact ih _ _ _ h
              · rw [loop_step_shortDecode hc hn ht' hs hp hd (by simp)]
                exact ih _ _ _ h
              · rw [loop_step_shortDecode hc hn ht' hs hp hd (by simp)]
                exact ih _ _ _ h
              · rw [loop_step_invoke hc hn ht' hs hp hd]
                exact ih _ _ _ (pairwiseKeys_stepInvoke _ _ _ _ _ _ h)
          · rw [loop_step_nonInvoke hc hn ht' hs hp]
            exact ih _ _ _ h
    · rw [Bool.not_eq_true] at hcond
      rw [loop_exit_of_cond_false hcond]
      exact pumpFinish_inv tid s tr h

theorem loop_handled_events (eng : Engine) (tid : AMFValue) (timeout : ℤ) :
    ∀ (fuel : Nat) (s : RTMP) (elapsed : ℤ) (tr : List Event),
      (∀ p, Event.handled p ∈ tr → isConnectReply p = false) →
      ∀ p, Event.handled p ∈
          traceOf (processPacketsLoop eng tid timeout fuel s elapsed tr) →
        isConnectReply p = false := by
  intro fuel
  induction fuel with
  | zero =>
    intro s elapsed tr h
    by_cases hcond : (eng.connected && !dictContains tid s._invoke_results) = true
    · by_cases ht : timeout ≤ elapsed
      · rw [loop_exit_of_timeout ht, traceOf_pumpFinish]
        exact h
      · rw [loop_fuelZero hcond (by omega)]
        intro p hp
        simp [traceOf] at hp
    · rw [Bool.not_eq_true] at hcond
      rw [loop_exit_of_cond_false hcond, traceOf_pumpFinish]
      exact h
  | succ fuel ih =>
    intro s elapsed tr h
    by_cases hcond : (eng.connected && !dictContains tid s._invoke_results) = true
    · by_cases ht : timeout ≤ elapsed
      · rw [loop_exit_of_timeout ht, traceOf_pumpFinish]
        exact h
      · have ht' : elapsed < timeout := by omega
        have hcn : eng.connected = true ∧
            dictContains tid s._invoke_results = false := by
          rw [Bool.and_eq_true, Bool.not_eq_true'] at hcond
          exact hcond
        obtain ⟨hc, hn⟩ := hcn
        cases hs : eng.stream s.pos with
        | none =>
          rw [loop_step_readError hc hn ht' hs]
          exact h
        | some p =>
          by_cases hp : p.ptype = PACKET_TYPE_INVOKE
          · cases hd : p.decoded with
            | fail =>
              rw [loop_step_decodeFail hc hn ht' hs hp hd]
              refine ih _ _ _ ?_
              intro q hq
              rcases List.mem_append.mp hq with hq1 | hq2
              · exact h q hq1
              · simp at hq2
            | ok l =>
              rcases l with _ | ⟨m, _ | ⟨t, _ | ⟨o, args⟩⟩⟩
              · rw [loop_step_shortDecode hc hn ht' hs hp hd (by simp)]
                refine ih _ _ _ ?_
                intro q hq
                rcases List.mem_append.mp hq with hq1 | hq2
                · exact h q hq1
                · simp at hq2
              · rw [loop_step_shortDecode hc hn ht' hs hp hd (by simp)]
                refine ih _ _ _ ?_
                intro q hq
                rcases List.mem_append.mp hq with hq1 | hq2
                · exact h q hq1
                · simp at hq2
              · rw [loop_step_shortDecode hc hn ht' hs hp hd (by simp)]
                refine ih _ _ _ ?_
                intro q hq
                rcases List.mem_append.mp hq with hq1 | hq2
                · exact h q hq1
                · simp at hq2
              · rw [loop_step_invoke hc hn ht' hs hp hd]
                refine ih _ _ _ ?_
                intro q hq
                rw [stepInvoke_trace] at hq
                rcases List.mem_append.mp hq with hq1 | hq2
                · rcases List.mem_append.mp hq1 with hq3 | hq4
                  · rcases List.mem_append.mp hq3 with hq5 | hq6
                    · exact h q hq5
                    · simp at hq6
                  · by_cases hm : pyEq m (AMFValue.string "_result") = true
                    · simp [hm] at hq4
                    · rw [Bool.not_eq_true] at hm
                      simp only [hm, Bool.false_eq_true, if_false,
                        List.mem_map] at hq4
                      obtain ⟨x, hx1, hx2⟩ := hq4
                      exact Event.noConfusion hx2
                · by_cases hpt : pyEq t (AMFValue.number 1) = true
                  · simp [hpt] at hq2
                  · rw [Bool.not_eq_true] at hpt
                    simp only [hpt, Bool.false_eq_true, if_false,
                      List.mem_singleton] at hq2
                    obtain rfl : q = p := by
                      cases hq2
                      rfl
                    simp [isConnectReply, hd, hpt]
          · rw [loop_step_nonInvoke hc hn ht' hs hp]
            refine ih _ _ _ ?_
            intro q hq
            rcases List.mem_append.mp hq with hq1 | hq2
            · rcases List.mem_append.mp hq1 with hq3 | hq4
              · exact h q hq3
              · simp at hq4
            · simp only [List.mem_singleton] at hq2
              obtain rfl : q = p := by
                cases hq2
                rfl
              simp [isConnectReply, hp]
    · rw [Bool.not_eq_true] at hcond
      rw [loop_exit_of_cond_false hcond, traceOf_pumpFinish]
      exact h

/-! ### Transaction id counter lemmas -/

theorem callSeq_tid : ∀ (ms : List String) (s : RTMP) (c : RTMPCall),
    c ∈ (callSeq s ms).2 →
    ∃ k : ℤ, c.transaction_id = AMFValue.number (k : ℚ) ∧ s.invoke_count < k := by
  intro ms
  induction ms with
  | nil =>
    intro s c hc
    simp [callSeq] at hc
  | cons m ms ih =>
    intro s c hc
    simp only [callSeq, List.mem_cons] at hc
    rcases hc with rfl | hc
    · exact ⟨s.invoke_count + 1, rfl, by omega⟩
    · obtain ⟨k, h1, h2⟩ := ih _ c hc
      refine ⟨k, h1, ?_⟩
      simp only [RTMP.call] at h2
      omega

theorem callSeq_pairwise : ∀ (ms : List String) (s : RTMP),
    List.Pairwise
      (fun a b : RTMPCall => amfNum a.transaction_id < amfNum b.transaction_id)
      (callSeq s ms).2 := by
  intro ms
  induction ms with
  | nil =>
    intro s
    simp [callSeq]
  | cons m ms ih =>
    intro s
    simp only [callSeq]
    refine List.Pairwise.cons ?_ (ih _)
    intro b hb
    obtain ⟨k, h1, h2⟩ := callSeq_tid ms _ b hb
    simp only [RTMP.call] at h2
    rw [h1]
    show amfNum (AMFValue.number ((s.invoke_count + 1 : ℤ) : ℚ)) <
      amfNum (AMFValue.number (k : ℚ))
    simp only [amfNum]
    exact_mod_cast h2

/-! ### Handler registry lemmas -/

theorem lookupHandlers_handlersAppend_self (m : AMFValue) (f : Nat)
    (hs : List (AMFValue × List Nat)) :
    lookupHandlers m (handlersAppend m f hs) = lookupHandlers m hs ++ [f] := by
  by_cases hc : hs.any (fun kv => pyEq kv.1 m) = true
  · simp only [handlersAppend, hc, if_true]
    induction hs with
    | nil => simp at hc
    | cons kv rest ih =>
      by_cases hk : pyEq kv.1 m = true
      · simp [lookupHandlers, hk]
      · rw [Bool.not_eq_true] at hk
        have hrest : rest.any (fun kv => pyEq kv.1 m) = true := by
          simp only [List.any_cons, hk, Bool.false_or] at hc
          exact hc
        simpa [lookupHandlers, hk] using ih hrest
  · rw [Bool.not_eq_true] at hc
    simp only [handlersAppend, hc, Bool.false_eq_true, if_false]
    have hall : ∀ kv ∈ hs, pyEq kv.1 m = false := by
      simpa [List.any_eq_true] using hc
    induction hs with
    | nil => simp [lookupHandlers, pyEq_refl]
    | cons kv rest ih =>
      have hkv := hall kv (by simp)
      have hc2 : rest.any (fun kv => pyEq kv.1 m) = false := by
        simp only [List.any_cons, Bool.or_eq_false_iff] at hc
        exact hc.2
      simpa [lookupHandlers, hkv] using
        ih hc2 (fun x hx => hall x (by simp [hx]))

theorem lookupHandlers_map_other {m2 m : AMFValue} (f : Nat)
    (hs : List (AMFValue × List Nat)) (hne : pyEq m2 m = false) :
    lookupHandlers m2
        (hs.map fun kv => if pyEq kv.1 m then (kv.1, kv.2 ++ [f]) else kv) =
      lookupHandlers m2 hs := by
  induction hs with
  | nil => rfl
  | cons kv rest ih =>
    by_cases hk2 : pyEq kv.1 m2 = true
    · have hk : pyEq kv.1 m = false := by
        by_contra hkk
        rw [Bool.not_eq_false] at hkk
        have h3 : pyEq m2 m = true :=
          pyEq_trans ((pyEq_symm kv.1 m2) ▸ hk2) hkk
        rw [h3] at hne
        exact Bool.noConfusion hne
      simp [lookupHandlers, hk, hk2]
    · rw [Bool.not_eq_true] at hk2
      by_cases hk : pyEq kv.1 m = true <;>
        simpa [lookupHandlers, hk, hk2] using ih

theorem lookupHandlers_handlersAppend_other {m2 m : AMFValue} (f : Nat)
    (hs : List (AMFValue × List Nat)) (hne : pyEq m2 m = false) :
    lookupHandlers m2 (handlersAppend m f hs) = lookupHandlers m2 hs := by
  unfold handlersAppend
  by_cases hc : hs.any (fun kv => pyEq kv.1 m) = true
  · simp only [hc, if_true]
    exact lookupHandlers_map_other f hs hne
  · rw [Bool.not_eq_true] at hc
    simp only [hc, Bool.false_eq_true, if_false]
    have hstop : pyEq m m2 = false := by
      rw [pyEq_symm]
      exact hne
    induction hs with
    | nil => simp [lookupHandlers, hstop]
    | cons kv rest ih =>
      by_cases hk2 : pyEq kv.1 m2 = true
      · simp [lookupHandlers, hk2]
      · rw [Bool.not_eq_true] at hk2
        have hc2 : rest.any (fun kv => pyEq kv.1 m) = false := by
          simp only [List.any_cons, Bool.or_eq_false_iff] at hc
          exact hc.2
        simpa [lookupHandlers, hk2] using ih hc2

/-- C4: a decoded invocation whose method name is the result marker stores
its first additional argument (absent = `None` when there are none) into the
pending results keyed by the decoded transaction id, overwriting any prior
entry for that id, and a subsequent pump targeting a stored id returns the
stored value with no further reads (unchanged trace). -/
theorem pump_stores_result_by_transaction_id_and_returns_without_reads :
    (∀ (eng : Engine) (tid : AMFValue) (timeout : ℤ) (fuel : Nat) (s : RTMP)
        (elapsed : ℤ) (tr : List Event) (p : RTMPPacket) (t obj : AMFValue)
        (args : List AMFValue),
      eng.connected = true → dictContains tid s._invoke_results = false →
      elapsed < timeout → eng.stream s.pos = some p →
      p.ptype = PACKET_TYPE_INVOKE →
      p.decoded = DecodeResult.ok (AMFValue.string "_result" :: t :: obj :: args) →
      processPacketsLoop eng tid timeout (fuel + 1) s elapsed tr =
        processPacketsLoop eng tid timeout fuel
          (stepInvoke { s with pos := s.pos + 1 } (tr ++ [Event.read p]) p
            (AMFValue.string "_result") t obj args).1
          (elapsed + eng.duration s.pos)
          (stepInvoke { s with pos := s.pos + 1 } (tr ++ [Event.read p]) p
            (AMFValue.string "_result") t obj args).2) ∧
    (∀ (s : RTMP) (tr : List Event) (p : RTMPPacket) (t obj : AMFValue)
        (args : List AMFValue),
      ((stepInvoke s tr p (AMFValue.string "_result") t obj args).1)._invoke_results =
        dictInsert t (args.headD AMFValue.null) s._invoke_results) ∧
    (∀ (t v : AMFValue) (d : List (AMFValue × AMFValue)),
      dictLookup t (dictInsert t v d) = some v) ∧
    (∀ (eng : Engine) (tid : AMFValue) (timeout : ℤ) (fuel : Nat) (s : RTMP)
        (elapsed : ℤ) (tr : List Event) (r : AMFValue),
      dictLookup tid s._invoke_results = some r →
      processPacketsLoop eng tid timeout fuel s elapsed tr =
        PumpResult.done r
          { s with _invoke_results := dictDelete tid s._invoke_results } tr) := by
  refine ⟨?_, ?_, ?_, ?_⟩
  · intro eng tid timeout fuel s elapsed tr p t obj args hc hn ht hs hp hd
    exact loop_step_invoke hc hn ht hs hp hd
  · intro s tr p t obj args
    rw [stepInvoke_results]
    simp [pyEq]
  · exact dictLookup_insert_self
  · intro eng tid timeout fuel s elapsed tr r h
    exact loop_exit_of_lookup h

theorem pump_stores_result_by_transaction_id_and_returns_without_reads_witness :
    processPacketsLoop engRes (AMFValue.number 5) 30 (0 + 1) initSession 0 [] =
      processPacketsLoop engRes (AMFValue.number 5) 30 0
        (stepInvoke { initSession with pos := initSession.pos + 1 }
          ([] ++ [Event.read pGood]) pGood (AMFValue.string "_result")
          (AMFValue.number 7) AMFValue.null [AMFValue.number 42]).1
        (0 + engRes.duration initSession.pos)
        (stepInvoke { initSession with pos := initSession.pos + 1 }
          ([] ++ [Event.read pGood]) pGood (AMFValue.string "_result")
          (AMFValue.number 7) AMFValue.null [AMFValue.number 42]).2 ∧
    ((stepInvoke initSession [] pGood (AMFValue.string "_result")
        (AMFValue.number 7) AMFValue.null [AMFValue.number 42]).1)._invoke_results =
      dictInsert (AMFValue.number 7) ([AMFValue.number 42].headD AMFValue.null)
        initSession._invoke_results ∧
    dictLookup (AMFValue.number 7)
        (dictInsert (AMFValue.number 7) (AMFValue.number 42)
          [(AMFValue.number 7, AMFValue.null)]) = some (AMFValue.number 42) ∧
    processPacketsLoop engRes (AMFValue.number 2) 30 5 sWith42 0 [] =
      PumpResult.done (AMFValue.number 42)
        { sWith42 with
          _invoke_results := dictDelete (AMFValue.number 2) sWith42._invoke_results }
        [] :=
  ⟨pump_stores_result_by_transaction_id_and_returns_without_reads.1 engRes
      (AMFValue.number 5) 30 0 initSession 0 [] pGood (AMFValue.number 7)
      AMFValue.null [AMFValue.number 42] rfl (by decide) (by decide) rfl rfl rfl,
   pump_stores_result_by_transaction_id_and_returns_without_reads.2.1 initSession
      [] pGood (AMFValue.number 7) AMFValue.null [AMFValue.number 42],
   pump_stores_result_by_transaction_id_and_returns_without_reads.2.2.1
      (AMFValue.number 7) (AMFValue.number 42) [(AMFValue.number 7, AMFValue.null)],
   pump_stores_result_by_transaction_id_and_returns_without_reads.2.2.2 engRes
      (AMFValue.number 2) 30 5 sWith42 0 [] (AMFValue.number 42) (by decide)⟩

/-- C5: the pending-results dict holds at most one entry per transaction id
(pairwise-distinct keys, true initially and preserved by every pump run),
and a pump that returns leaves no entry for its target id behind: when the
target id has a stored result the pump removes that entry and returns the
value, so a stored result is consumed at most once. -/
theorem pending_results_unique_and_single_consumption :
    PairwiseKeys initSession._invoke_results ∧
    (∀ (eng : Engine) (tid : AMFValue) (timeout : ℤ) (fuel : Nat) (s : RTMP)
        (elapsed : ℤ) (tr : List Event),
      PairwiseKeys s._invoke_results →
      (∀ s2 tr2, processPacketsLoop eng tid timeout fuel s elapsed tr =
          PumpResult.ioError s2 tr2 → PairwiseKeys s2._invoke_results) ∧
      (∀ r s2 tr2, processPacketsLoop eng tid timeout fuel s elapsed tr =
          PumpResult.done r s2 tr2 →
          PairwiseKeys s2._invoke_results ∧
            dictContains tid s2._invoke_results = false)) ∧
    (∀ (eng : Engine) (tid : AMFValue) (timeout : ℤ) (fuel : Nat) (s : RTMP)
        (elapsed : ℤ) (tr : List Event) (r : AMFValue),
      dictLookup tid s._invoke_results = some r →
      processPacketsLoop eng tid timeout fuel s elapsed tr =
        PumpResult.done r
          { s with _invoke_results := dictDelete tid s._invoke_results } tr) := by
  refine ⟨List.Pairwise.nil, ?_, ?_⟩
  · intro eng tid timeout fuel s elapsed tr h
    exact loopInvariant eng tid timeout fuel s elapsed tr h
  · intro eng tid timeout fuel s elapsed tr r h
    exact loop_exit_of_lookup h

theorem pending_results_unique_and_single_consumption_witness :
    PairwiseKeys ({ sWith42 with
        _invoke_results :=
          dictDelete (AMFValue.number 2) sWith42._invoke_results })._invoke_results ∧
    dictContains (AMFValue.number 2)
      ({ sWith42 with
        _invoke_results :=
          dictDelete (AMFValue.number 2) sWith42._invoke_results })._invoke_results =
      false :=
  (pending_results_unique_and_single_consumption.2.1 engNull (AMFValue.number 2)
      30 5 sWith42 0 [] (List.pairwise_singleton _ _)).2 (AMFValue.number 42)
    { sWith42 with
      _invoke_results := dictDelete (AMFValue.number 2) sWith42._invoke_results }
    [] (by decide)

/-- C6: an invocation packet whose body fails to decode is discarded
silently — the pump continues its loop on the same session state (only the
read position advances), no error is raised, and later packets are still
processed; concretely, a feed of one malformed packet followed by a valid
result packet for the target id still yields the valid value. -/
theorem pump_discards_undecodable_packet_and_continues :
    (∀ (eng : Engine) (tid : AMFValue) (timeout : ℤ) (fuel : Nat) (s : RTMP)
        (elapsed : ℤ) (tr : List Event) (p : RTMPPacket),
      eng.connected = true → dictContains tid s._invoke_results = false →
      elapsed < timeout → eng.stream s.pos = some p →
      p.ptype = PACKET_TYPE_INVOKE → p.decoded = DecodeResult.fail →
      processPacketsLoop eng tid timeout (fuel + 1) s elapsed tr =
        processPacketsLoop eng tid timeout fuel { s with pos := s.pos + 1 }
          (elapsed + eng.duration s.pos) (tr ++ [Event.read p])) ∧
    RTMP.process_packets engSeq initSession (AMFValue.number 7) 30 10 =
      PumpResult.done (AMFValue.number 42) { initSession with pos := 2 }
        [Event.read pBad, Event.read pGood, Event.handled pGood] := by
  constructor
  · intro eng tid timeout fuel s elapsed tr p hc hn ht hs hp hd
    exact loop_step_decodeFail hc hn ht hs hp hd
  · simp [RTMP.process_packets, processPacketsLoop, engSeq, pBad, pGood,
      initSession, dictContains, dictLookup, dictDelete, dictInsert, stepInvoke,
      pumpFinish, pyEq, PACKET_TYPE_INVOKE, lookupHandlers]

theorem pump_discards_undecodable_packet_and_continues_witness :
    processPacketsLoop engNoMatch (AMFValue.number 2) 30 (0 + 1) initSession 0 [] =
      processPacketsLoop engNoMatch (AMFValue.number 2) 30 0
        { initSession with pos := initSession.pos + 1 }
        (0 + engNoMatch.duration initSession.pos) ([] ++ [Event.read pBad]) :=
  pump_discards_undecodable_packet_and_continues.1 engNoMatch (AMFValue.number 2)
    30 0 initSession 0 [] pBad rfl (by decide) (by decide) rfl rfl rfl

/-- C10: an invocation packet whose body decodes to fewer than three values
(too few to unpack a method name, transaction id and command object) is
discarded silently exactly like a decode failure: the pump continues its
loop with only the read position advanced and no error reaches the
caller. -/
theorem pump_discards_short_decode_and_continues :
    ∀ (eng : Engine) (tid : AMFValue) (timeout : ℤ) (fuel : Nat) (s : RTMP)
      (elapsed : ℤ) (tr : List Event) (p : RTMPPacket) (l : List AMFValue),
      eng.connected = true → dictContains tid s._invoke_results = false →
      elapsed < timeout → eng.stream s.pos = some p →
      p.ptype = PACKET_TYPE_INVOKE → p.decoded = DecodeResult.ok l →
      l.length < 3 →
      processPacketsLoop eng tid timeout (fuel + 1) s elapsed tr =
        processPacketsLoop eng tid timeout fuel { s with pos := s.pos + 1 }
          (elapsed + eng.duration s.pos) (tr ++ [Event.read p]) := by
  intro eng tid timeout fuel s elapsed tr p l hc hn ht hs hp hd hl
  exact loop_step_shortDecode hc hn ht hs hp hd hl

theorem pump_discards_short_decode_and_continues_witness :
    processPacketsLoop engShort (AMFValue.number 2) 30 (0 + 1) initSession 0 [] =
      processPacketsLoop engShort (AMFValue.number 2) 30 0
        { initSession with pos := initSession.pos + 1 }
        (0 + engShort.duration initSession.pos) ([] ++ [Event.read pShort]) :=
  pump_discards_short_decode_and_continues engShort (AMFValue.number 2) 30 0
    initSession 0 [] pShort [AMFValue.string "x"] rfl (by decide) (by decide)
    rfl rfl rfl (by decide)

/-- C9: when the engine rejects a key/value pair, `set_option` raises a
`ValueError` synchronously at the call site and records nothing (the
session's previously stored options are untouched); when the engine accepts
the pair, it is appended to the stored options. -/
theorem set_option_rejection_raises_and_preserves_options :
    ∀ (eng : Engine) (s : RTMP) (key value : String),
      (eng.setOpt key value = false →
        RTMP.set_option eng s key value =
          Except.error ("Unable to set option " ++ key)) ∧
      (eng.setOpt key value = true →
        RTMP.set_option eng s key value =
          Except.ok { s with _options := s._options ++ [(key, value)] }) := by
  intro eng s key value
  constructor <;> intro h <;> simp [RTMP.set_option, h]

theorem set_option_rejection_raises_and_preserves_options_witness :
    RTMP.set_option engReject initSession "playpath" "x" =
      Except.error ("Unable to set option " ++ "playpath") ∧
    RTMP.set_option engNull initSession "playpath" "x" =
      Except.ok { initSession with
        _options := initSession._options ++ [("playpath", "x")] } :=
  ⟨(set_option_rejection_raises_and_preserves_options engReject initSession
      "playpath" "x").1 rfl,
   (set_option_rejection_raises_and_preserves_options engNull initSession
      "playpath" "x").2 rfl⟩

/-- C1 (code bug): after a first `result()` call resolved the handle with
the value `42`, a second `result()` call performs no pump attempt and no
reads (empty event trace) but returns the bound method object
(`return self.result` returns the method, not the cached `_result` value),
which differs from the value the first call returned. -/
theorem result_second_call_returns_bound_method :
    RTMPCall.result engNull 5 none sWith42 cFor2 =
      ResultOut.ret (CallRet.value (AMFValue.number 42)) initSession cDone [] ∧
    RTMPCall.result engNull 5 none initSession cDone =
      ResultOut.ret CallRet.boundMethod initSession cDone [] ∧
    CallRet.boundMethod ≠ CallRet.value (AMFValue.number 42) :=
  ⟨by decide, by decide, by decide⟩

/-- C2 (code bug): `result(timeout=5)` does not forward its `timeout`
argument — `process_packets` runs with its own default budget of `30`, so
against a connected engine that never yields a matching result and whose
reads take one time unit each, the call performs 30 reads (elapsed 30, not
5) and then returns the absent value `None` without error. -/
theorem result_timeout_argument_not_forwarded :
    RTMPCall.result engNoMatch 40 (some 5) initSession cFor2 =
      ResultOut.ret (CallRet.value AMFValue.null) { initSession with pos := 30 }
        { cFor2 with _result := AMFValue.null, done := true }
        (List.replicate 30 (Event.read pBad)) ∧
    readCount (List.replicate 30 (Event.read pBad)) = 30 := by
  constructor
  · have h := engNoMatch_loop 30 40 initSession 0 [] rfl (by omega) (by norm_num)
    unfold RTMPCall.result
    rw [if_neg (by decide), show cFor2.transaction_id = AMFValue.number 2 from rfl]
    unfold RTMP.process_packets
    rw [h]
    decide
  · have hall : ∀ e ∈ List.replicate 30 (Event.read pBad),
        (match e with | Event.read _ => true | _ => false) = true := by
      intro e he
      rw [List.eq_of_mem_replicate he]
    rw [readCount, List.filter_eq_self.mpr hall, List.length_replicate]

/-- C3 (counterexample): on a session holding a cached connect reply,
calling `create_stream` twice feeds the cached packet to the engine protocol
handler twice — not exactly once in total as claimed (`_connect_result` is
never cleared). -/
theorem create_stream_called_twice_forwards_connect_reply_twice :
    ((RTMP.create_stream sConn).2 ++
        (RTMP.create_stream (RTMP.create_stream sConn).1).2).count
      (Event.handled p0) = 2 ∧
    ¬(((RTMP.create_stream sConn).2 ++
        (RTMP.create_stream (RTMP.create_stream sConn).1).2).count
      (Event.handled p0) = 1) :=
  ⟨by decide, by decide⟩

/-- C3 (amended): the pump never feeds a connect reply (an invocation whose
decoded transaction id is `1.0`) to the engine protocol handler — it only
caches it — and each `create_stream` call on a session holding a cached
connect reply feeds it to the protocol handler exactly once per call,
leaving the cache in place; with no cached reply nothing is fed. -/
theorem connect_reply_forwarded_once_per_create_stream :
    (∀ (eng : Engine) (tid : AMFValue) (timeout : ℤ) (fuel : Nat) (s : RTMP)
        (elapsed : ℤ) (p : RTMPPacket),
      Event.handled p ∈
          traceOf (processPacketsLoop eng tid timeout fuel s elapsed []) →
      isConnectReply p = false) ∧
    (∀ (s : RTMP) (p : RTMPPacket), s._connect_result = some p →
      RTMP.create_stream s = (s, [Event.handled p])) ∧
    (∀ s : RTMP, s._connect_result = none →
      RTMP.create_stream s = (s, [])) := by
  refine ⟨?_, ?_, ?_⟩
  · intro eng tid timeout fuel s elapsed p hp
    exact loop_handled_events eng tid timeout fuel s elapsed []
      (fun q hq => by simp at hq) p hp
  · intro s p h
    simp [RTMP.create_stream, h]
  · intro s h
    simp [RTMP.create_stream, h]

theorem connect_reply_forwarded_once_per_create_stream_witness :
    isConnectReply p0 = false ∧
    RTMP.create_stream sConn = (sConn, [Event.handled p0]) ∧
    RTMP.create_stream initSession = (initSession, []) :=
  ⟨connect_reply_forwarded_once_per_create_stream.1 engP0 AMFValue.null 1 1
      initSession 0 p0 (by decide),
   connect_reply_forwarded_once_per_create_stream.2.1 sConn p0 rfl,
   connect_reply_forwarded_once_per_create_stream.2.2 initSession rfl⟩

/-- C7: on a session whose engine invoke counter a successful `connect` has
left at the reserved handshake value, every sequence of `call()`
invocations receives strictly increasing transaction ids, each a number
distinct from the reserved connect id `1.0` (spec-modelled: the librtmp
invoke counter itself lives outside the session layer source). -/
theorem call_ids_strictly_increasing_and_never_connect_id :
    ∀ (s : RTMP) (ms : List String),
      List.Pairwise
        (fun a b : RTMPCall =>
          amfNum a.transaction_id < amfNum b.transaction_id)
        (callSeq (RTMP.connect s).1 ms).2 ∧
      ∀ c ∈ (callSeq (RTMP.connect s).1 ms).2,
        pyEq c.transaction_id (AMFValue.number 1) = false ∧
        ∃ q : ℚ, c.transaction_id = AMFValue.number q := by
  intro s ms
  refine ⟨callSeq_pairwise ms _, ?_⟩
  intro c hc
  obtain ⟨k, h1, h2⟩ := callSeq_tid ms _ c hc
  have hk : (RTMP.connect s).1.invoke_count = 1 := rfl
  rw [hk] at h2
  refine ⟨?_, ⟨(k : ℚ), h1⟩⟩
  rw [h1]
  simp only [pyEq]
  exact decide_eq_false fun hq => by
    have hk1 : k = 1 := by exact_mod_cast hq
    omega

theorem call_ids_strictly_increasing_and_never_connect_id_witness :
    pyEq (RTMPCall.mk AMFValue.null false
        (AMFValue.number ((2 : ℤ) : ℚ))).transaction_id
      (AMFValue.number 1) = false ∧
    ∃ q : ℚ, (RTMPCall.mk AMFValue.null false
        (AMFValue.number ((2 : ℤ) : ℚ))).transaction_id = AMFValue.number q :=
  (call_ids_strictly_increasing_and_never_connect_id initSession ["a", "b"]).2
    (RTMPCall.mk AMFValue.null false (AMFValue.number ((2 : ℤ) : ℚ)))
    (by decide)

/-- C8: registering a callback appends it to the method's ordered list
(handler lists for other method names are untouched), and dispatching an
inbound non-result invocation fires every callback registered for the
decoded method name exactly once, in registration order, with the decoded
additional arguments — a no-op when no callback is registered. -/
theorem register_appends_and_dispatch_in_registration_order :
    (∀ (s : RTMP) (m : String) (f : Nat),
      lookupHandlers (AMFValue.string m)
          ((RTMP.register_remote_call s m f)._invoke_handlers) =
        lookupHandlers (AMFValue.string m) s._invoke_handlers ++ [f]) ∧
    (∀ (s : RTMP) (m : String) (f : Nat) (m2 : AMFValue),
      pyEq m2 (AMFValue.string m) = false →
      lookupHandlers m2 ((RTMP.register_remote_call s m f)._invoke_handlers) =
        lookupHandlers m2 s._invoke_handlers) ∧
    (∀ (s : RTMP) (tr : List Event) (p : RTMPPacket) (m t obj : AMFValue)
        (args : List AMFValue),
      pyEq m (AMFValue.string "_result") = false →
      (stepInvoke s tr p m t obj args).2 =
        tr ++ (lookupHandlers m s._invoke_handlers).map
            (fun h => Event.handler h args)
           ++ (if pyEq t (AMFValue.number 1) then [] else [Event.handled p])) ∧
    (∀ (s : RTMP) (tr : List Event) (p : RTMPPacket) (m t obj : AMFValue)
        (args : List AMFValue),
      pyEq m (AMFValue.string "_result") = false →
      lookupHandlers m s._invoke_handlers = [] →
      (stepInvoke s tr p m t obj args).2 =
        tr ++ (if pyEq t (AMFValue.number 1) then [] else [Event.handled p])) := by
  refine ⟨?_, ?_, ?_, ?_⟩
  · intro s m f
    exact lookupHandlers_handlersAppend_self (AMFValue.string m) f
      s._invoke_handlers
  · intro s m f m2 hne
    exact lookupHandlers_handlersAppend_other f s._invoke_handlers hne
  · intro s tr p m t obj args hm
    rw [stepInvoke_trace]
    simp [hm]
  · intro s tr p m t obj args hm hempty
    rw [stepInvoke_trace]
    simp [hm, hempty]

theorem register_appends_and_dispatch_in_registration_order_witness :
    lookupHandlers (AMFValue.string "onStatus")
        ((RTMP.register_remote_call initSession "onStatus" 0)._invoke_handlers) =
      lookupHandlers (AMFValue.string "onStatus")
        initSession._invoke_handlers ++ [0] ∧
    lookupHandlers (AMFValue.string "other")
        ((RTMP.register_remote_call initSession "onStatus" 0)._invoke_handlers) =
      lookupHandlers (AMFValue.string "other") initSession._invoke_handlers ∧
    (stepInvoke initSession [] p0 (AMFValue.string "onStatus")
        (AMFValue.number 7) AMFValue.null [AMFValue.number 42]).2 =
      [] ++ (lookupHandlers (AMFValue.string "onStatus")
          initSession._invoke_handlers).map
          (fun h => Event.handler h [AMFValue.number 42])
        ++ (if pyEq (AMFValue.number 7) (AMFValue.number 1) then []
            else [Event.handled p0]) ∧
    (stepInvoke initSession [] p0 (AMFValue.string "onStatus")
        (AMFValue.number 7) AMFValue.null [AMFValue.number 42]).2 =
      [] ++ (if pyEq (AMFValue.number 7) (AMFValue.number 1) then []
             else [Event.handled p0]) :=
  ⟨register_appends_and_dispatch_in_registration_order.1 initSession
      "onStatus" 0,
   register_appends_and_dispatch_in_registration_order.2.1 initSession
      "onStatus" 0 (AMFValue.string "other") (by decide),
   register_appends_and_dispatch_in_registration_order.2.2.1 initSession []
      p0 (AMFValue.string "onStatus") (AMFValue.number 7) AMFValue.null
      [AMFValue.number 42] (by decide),
   register_appends_and_dispatch_in_registration_order.2.2.2 initSession []
      p0 (AMFValue.string "onStatus") (AMFValue.number 7) AMFValue.null
      [AMFValue.number 42] (by decide) rfl⟩
